import Mathlib

/-!
Verification of the MysticNexus RAG pipeline against its specification.

The development shallowly embeds the Python sources:
  * `src/RAG_Server/utils/doc_utils.py` (chunking, batched embeddings, chunk ids),
  * `src/RAG_Server/utils/langgraph_workflow.py` (the LangGraph workflow),
  * `src/FastAPI_Server/utils/rag_langgraph.py` (the FastAPI workflow:
    similarity-filtered retrieval, context assembly, generation),
  * `src/FastAPI_Server/utils/document_manager.py` (plain `chunk_text`),
  * `src/RAG_Server/config/chromaDB.py` (collection create/get wrappers).

Python strings are embedded as `List Char` (`Str`), bytes as `List Nat`,
floats as `ℚ`.  External black boxes (spaCy/NLTK cleaning, the embedding
model, the vector-similarity search, the LLM, the wall clock) are taken as
explicit function parameters, following the contracts the specification
gives for them.  The LangGraph graphs execute their nodes in a topological
order of the declared edges; the embedding sequences the two branches
(query branch, document branch) in that order, which is observationally
faithful because the branches read and write disjoint state fields.
-/

namespace MysticNexus

/-- Python strings, embedded as lists of characters. -/
abbrev Str := List Char

/-- Python `str.isspace` characters (ASCII range, as used by `\s` and `strip`). -/
def isPySpace (c : Char) : Bool :=
  c == ' ' || c == '\t' || c == '\n' || c == '\r' || c == '\x0b' || c == '\x0c'

/-- Python `text.strip()`: remove leading and trailing whitespace. -/
def pyStrip (s : Str) : Str :=
  ((s.dropWhile isPySpace).reverse.dropWhile isPySpace).reverse

/-- Python slice `s[a:b]` for non-negative clamped indices. -/
def pySlice (s : Str) (a b : Nat) : Str := (s.take b).drop a

/-- Python `text.rfind('.', a, b)`: the largest index of `'.'` in `s[a:b]`,
`none` standing for Python's `-1`. -/
def pyRfindDot (s : Str) (a b : Nat) : Option Nat :=
  ((List.range (min b s.length)).filter
    (fun i => decide (a ≤ i) && (s.get? i == some '.'))).getLast?

/-- Python `len(text.split())`: number of maximal whitespace-separated words. -/
def pyWordCount (s : Str) : Nat :=
  (s.foldl (fun (p : Nat × Bool) c =>
    if isPySpace c then (p.1, false)
    else (if p.2 then p.1 else p.1 + 1, true)) (0, false)).1

/-- Lower-case a character as Python `str.lower` does on ASCII. -/
def pyLowerChar (c : Char) : Char :=
  if 'A' ≤ c ∧ c ≤ 'Z' then Char.ofNat (c.toNat + 32) else c

/-- `os.path.splitext(s)[1]` for plain file names (no directory separators):
the extension starting at the last `'.'`, empty when the name consists only
of leading dots. -/
def splitextExt (s : Str) : Str :=
  match ((List.range s.length).filter (fun i => s.get? i == some '.')).getLast? with
  | none => []
  | some i => if (List.range i).any (fun j => !(s.get? j == some '.')) then s.drop i else []

/-! ## `MustanDocumentManager.chunk_text` (`doc_utils.py` 184-242)

The FastAPI `DocumentManager.chunk_text` (`document_manager.py` 115-148)
runs the identical loop and merely collects the chunk texts; both are
embedded through the same fueled loop.  The loop is fueled because, as
claim C6 shows, the Python loop does not terminate for all parameters:
`none` means the fuel ran out. -/

/-- One chunk produced by `chunk_text`. -/
structure CTChunk where
  text : Str
  chunk_index : Nat
  total_chunks : Nat
  start_pos : Nat
  end_pos : Nat
deriving DecidableEq, Repr

/-- The window end computed by one `chunk_text` iteration: `end = start +
max_chunk_size`, snapped back to just after the last `'.'` in the window
when that lies beyond the half-window mark (Python's `-1` no-match makes
the comparison false, which the `none` branch mirrors). -/
def chunkTextEnd (text : Str) (max_chunk_size start : Nat) : Nat :=
  let e := start + max_chunk_size
  if e < text.length then
    match pyRfindDot text start e with
    | some se => if start + max_chunk_size / 2 < se then se + 1 else e
    | none => e
  else e

/-- The next window start of `chunk_text`: `start = end - overlap_size`
(no clamping; truncated subtraction matches Python on every run where
`end ≥ overlap_size`, which holds in all runs examined here). -/
def chunkTextNextStart (text : Str) (max_chunk_size overlap_size start : Nat) : Nat :=
  chunkTextEnd text max_chunk_size start - overlap_size

/-- The `while start < len(text)` loop of `chunk_text`; emits a chunk when
the stripped window is non-empty, with `chunk_index` the number of chunks
emitted so far. -/
def chunkTextLoop (text : Str) (max_chunk_size overlap_size : Nat) :
    Nat → Nat → List CTChunk → Option (List CTChunk)
  | 0, _, _ => none
  | fuel + 1, start, acc =>
    if start < text.length then
      let e := chunkTextEnd text max_chunk_size start
      let ct := pyStrip (pySlice text start e)
      let acc2 := if ct ≠ [] then acc ++ [⟨ct, acc.length, 0, start, e⟩] else acc
      let start2 := e - overlap_size
      if text.length ≤ start2 then some acc2
      else chunkTextLoop text max_chunk_size overlap_size fuel start2 acc2
    else some acc

/-- `MustanDocumentManager.chunk_text`: single chunk for short texts,
otherwise the sliding-window loop followed by the `total_chunks`
back-fill.  Fuel `length + 1` is spent at one unit per iteration; it
suffices whenever the Python loop terminates. -/
def chunk_text (text : Str) (max_chunk_size overlap_size : Nat) : List CTChunk :=
  if text.length ≤ max_chunk_size then
    [⟨text, 0, 1, 0, text.length⟩]
  else
    let cs := (chunkTextLoop text max_chunk_size overlap_size (text.length + 1) 0 []).getD []
    cs.map (fun c => { c with total_chunks := cs.length })

example : chunk_text "aaa".data 2 1 =
    [⟨"aa".data, 0, 3, 0, 2⟩, ⟨"aa".data, 1, 3, 1, 3⟩, ⟨"a".data, 2, 3, 2, 4⟩] := by decide

example : chunkTextNextStart "aaa".data 2 2 0 = 0 := by decide

example : chunkTextLoop "aaa".data 2 2 50 0 [] = none := by decide

/-! ## `MustanDocumentManager._sonnet_chunk_text_intelligent` (`doc_utils.py` 400-486)

The six `boundary_patterns` regexes are embedded as explicit matchers.
For each pattern, a match starting at position `i` (if any) is unique and
greedy, and matches of the same pattern can never overlap, so
`re.finditer`'s match list is exactly the list of per-position matches in
position order; `matches[-1].end()` is the last entry. -/

/-- Uppercase ASCII letter, for the regex class `[A-Z]`. -/
def isUpperAZ (c : Char) : Bool := 'A' ≤ c && c ≤ 'Z'

/-- The regex class `[.!?]`. -/
def isSentEnd (c : Char) : Bool := c == '.' || c == '!' || c == '?'

/-- The regex class `[,;]`. -/
def isClauseEnd (c : Char) : Bool := c == ',' || c == ';'

/-- Length of the whitespace run starting at `i`. -/
def wsRunLen (s : Str) (i : Nat) : Nat := ((s.drop i).takeWhile isPySpace).length

/-- Length of the `'\n'` run starting at `i`. -/
def nlRunLen (s : Str) (i : Nat) : Nat := ((s.drop i).takeWhile (· == '\n')).length

/-- End of the match of `\n\n+` starting at `i` (a maximal newline run of
length at least two), if any. -/
def mEndParaBreak (s : Str) (i : Nat) : Option Nat :=
  if (s.get? i == some '\n') && (i == 0 || !(s.get? (i - 1) == some '\n'))
      && decide (2 ≤ nlRunLen s i)
  then some (i + nlRunLen s i) else none

/-- End of the match of `\. [A-Z]` starting at `i`, if any. -/
def mEndSentCap (s : Str) (i : Nat) : Option Nat :=
  if (s.get? i == some '.') && (s.get? (i + 1) == some ' ')
      && (s.get? (i + 2)).any isUpperAZ
  then some (i + 3) else none

/-- End of the match of `[.!?]\s+` starting at `i`, if any. -/
def mEndSentWs (s : Str) (i : Nat) : Option Nat :=
  if (s.get? i).any isSentEnd && (s.get? (i + 1)).any isPySpace
  then some (i + 1 + wsRunLen s (i + 1)) else none

/-- End of the match of `\n` starting at `i`, if any. -/
def mEndNewline (s : Str) (i : Nat) : Option Nat :=
  if s.get? i == some '\n' then some (i + 1) else none

/-- End of the match of `[,;]\s+` starting at `i`, if any. -/
def mEndClauseWs (s : Str) (i : Nat) : Option Nat :=
  if (s.get? i).any isClauseEnd && (s.get? (i + 1)).any isPySpace
  then some (i + 1 + wsRunLen s (i + 1)) else none

/-- End of the match of `\s+` starting at `i` (a maximal whitespace run),
if any. -/
def mEndWs (s : Str) (i : Nat) : Option Nat :=
  if (s.get? i).any isPySpace && (i == 0 || !((s.get? (i - 1)).any isPySpace))
  then some (i + wsRunLen s i) else none

/-- `matches[-1].end()` of `re.finditer(pattern, s)`: the end of the last
match of the pattern in `s`, matches enumerated by start position. -/
def lastMatchEnd (m : Str → Nat → Option Nat) (s : Str) : Option Nat :=
  ((List.range s.length).filterMap (m s)).getLast?

/-- The `boundary_patterns` list, in the source's preference order. -/
def boundaryPatterns : List (Str → Nat → Option Nat) :=
  [mEndParaBreak, mEndSentCap, mEndSentWs, mEndNewline, mEndClauseWs, mEndWs]

/-- The inner `for pattern in boundary_patterns` loop: take the first
pattern whose last match in the search window ends after
`start + min_chunk_size`; default to the raw window end. -/
def tryPatterns (searchStart startMin e : Nat) (st : Str) :
    List (Str → Nat → Option Nat) → Nat
  | [] => e
  | m :: rest =>
    match lastMatchEnd m st with
    | some me =>
      if startMin < searchStart + me then searchStart + me
      else tryPatterns searchStart startMin e st rest
    | none => tryPatterns searchStart startMin e st rest

/-- The boundary search of `_sonnet_chunk_text_intelligent`: search the
last (at most) 200 characters of the window `[start, e)`, but never
earlier than `start + min_chunk_size`. -/
def findBestBoundary (text : Str) (start min_chunk_size e : Nat) : Nat :=
  let ss := max (start + min_chunk_size) (e - 200)
  tryPatterns ss (start + min_chunk_size) e (pySlice text ss e) boundaryPatterns

/-- One chunk produced by `_sonnet_chunk_text_intelligent` (the random
`chunk_id` uuid field carries no information and is omitted). -/
structure SChunk where
  text : Str
  chunk_index : Nat
  total_chunks : Nat
  start_pos : Nat
  end_pos : Nat
  token_count : Nat
deriving DecidableEq, Repr

/-- Window end of one `_sonnet_chunk_text_intelligent` iteration. -/
def sonnetEnd (text : Str) (max_chunk_size min_chunk_size start : Nat) : Nat :=
  let e0 := min (start + max_chunk_size) text.length
  if e0 < text.length then findBestBoundary text start min_chunk_size e0 else e0

/-- Next window start of `_sonnet_chunk_text_intelligent`:
`start = max(start + 1, end - overlap_size)`. -/
def sonnetNextStart (text : Str) (max_chunk_size overlap_size min_chunk_size start : Nat) :
    Nat :=
  max (start + 1) (sonnetEnd text max_chunk_size min_chunk_size start - overlap_size)

/-- The `while start < len(text)` loop of `_sonnet_chunk_text_intelligent`;
emits the stripped window when it is non-empty and at least
`min_chunk_size` long.  Fueled; `none` means the fuel ran out. -/
def sonnetLoop (text : Str) (max_chunk_size overlap_size min_chunk_size : Nat) :
    Nat → Nat → List SChunk → Option (List SChunk)
  | 0, _, _ => none
  | fuel + 1, start, acc =>
    if start < text.length then
      let e := sonnetEnd text max_chunk_size min_chunk_size start
      let ct := pyStrip (pySlice text start e)
      let acc2 :=
        if ct ≠ [] ∧ min_chunk_size ≤ ct.length then
          acc ++ [⟨ct, acc.length, 0, start, e, pyWordCount ct⟩]
        else acc
      let start2 := max (start + 1) (e - overlap_size)
      if text.length ≤ start2 then some acc2
      else sonnetLoop text max_chunk_size overlap_size min_chunk_size fuel start2 acc2
    else some acc

/-- `_sonnet_chunk_text_intelligent`: single chunk for short texts,
otherwise the boundary-aware sliding window followed by the
`total_chunks` back-fill.  Fuel `length + 1` always suffices
(`sonnet_loop_terminates`). -/
def sonnet_chunk_text_intelligent (text : Str)
    (max_chunk_size overlap_size min_chunk_size : Nat) : List SChunk :=
  if text.length ≤ max_chunk_size then
    [⟨text, 0, 1, 0, text.length, pyWordCount text⟩]
  else
    let cs := (sonnetLoop text max_chunk_size overlap_size min_chunk_size
      (text.length + 1) 0 []).getD []
    cs.map (fun c => { c with total_chunks := cs.length })

example :
    sonnet_chunk_text_intelligent (List.replicate 12 'a') 10 0 5 =
      [⟨List.replicate 10 'a', 0, 1, 0, 10, 1⟩] := by decide

example :
    sonnet_chunk_text_intelligent "One two. Three four. Five six seven.".data 20 5 5 =
      [⟨"One two. T".data, 0, 4, 0, 10, 3⟩,
       ⟨"wo. Three four. F".data, 1, 4, 5, 22, 4⟩,
       ⟨"ur. Five six seven.".data, 2, 4, 17, 36, 4⟩,
       ⟨"even.".data, 3, 4, 31, 36, 1⟩] := by decide

/-! ## Embedding generation (`doc_utils.py` 244-264, 488-515)

`embedding_text` forwards to `HuggingFaceEmbeddings.embed_documents`, a
black box outside the repository.  Modelled from the spec: §4.3 requires
`embed` to return one fixed-dimension vector per input text, in input
order, so the black box is a per-text function `f` mapped over the
input. -/

/-- Embedding vectors (Python float lists). -/
abbrev Emb := List ℚ

/-- `MustanDocumentManager.embedding_text` over the black-box per-text
embedder `f` (modelled from the spec, see section header). -/
def embedding_text (f : String → Emb) (texts : List String) : List Emb :=
  texts.map f

/-- `MustanDocumentManager.generate_embeddings`: the async wrapper runs
`embedding_text` on a worker thread and returns its result unchanged. -/
def generate_embeddings (f : String → Emb) (texts : List String) : List Emb :=
  embedding_text f texts

/-- Fueled splitting into batches; the fuel only ever runs out on the
empty list (one batch consumes at least one element), where the answer is
`[]` either way. -/
def pyBatchesAux (f : String → Emb) : Nat → Nat → List String → List Emb
  | 0, _, _ => []
  | fuel + 1, batch_size, l =>
    if batch_size = 0 ∨ l = [] then []
    else embedding_text f (l.take batch_size) ++ pyBatchesAux f fuel batch_size (l.drop batch_size)

/-- `MustanDocumentManager._sonnet_generate_embeddings_batched`: empty
input short-circuits to `[]`; otherwise `range(0, len(texts), batch_size)`
embeds each batch `texts[i:i+batch_size]` in turn and concatenates the
per-batch results (`all_embeddings.extend`). -/
def sonnet_generate_embeddings_batched (f : String → Emb) (batch_size : Nat)
    (texts : List String) : List Emb :=
  if texts = [] then []
  else pyBatchesAux f texts.length batch_size texts

/-! ## `DocumentHandler.generate_chunk_id` (`doc_utils.py` 524-531) -/

/-- The decimal digit characters, for Python's `str(int)` / f-string
rendering of a non-negative integer. -/
def digitChar : Nat → Char
  | 0 => '0' | 1 => '1' | 2 => '2' | 3 => '3' | 4 => '4'
  | 5 => '5' | 6 => '6' | 7 => '7' | 8 => '8' | 9 => '9'
  | _ => '*'

/-- Fueled decimal rendering; the fuel `n + 1` of `natRepr` always
suffices since the argument at least halves each step. -/
def natReprAux : Nat → Nat → Str
  | 0, _ => []
  | fuel + 1, n =>
    if n < 10 then [digitChar n]
    else natReprAux fuel (n / 10) ++ [digitChar (n % 10)]

/-- Decimal rendering of a natural number, as Python's f-string does. -/
def natRepr (n : Nat) : Str := natReprAux (n + 1) n

/-- `re.sub(r'[^\w\-_\.]', '_', filename)[:20]`: keep word characters
(ASCII modelled), hyphens, underscores and dots, replace everything else
by `'_'`, then truncate to 20 characters. -/
def sanitizeFilename (filename : Str) : Str :=
  (filename.map (fun c =>
    if c.isAlphanum || c == '_' || c == '-' || c == '.' then c else '_')).take 20

/-- `DocumentHandler.generate_chunk_id`.  The Python function reads the
timestamp from the wall clock (`datetime.now().strftime("%Y%m%d_%H%M%S")`,
always 15 characters); here the clock reading is an explicit argument. -/
def generate_chunk_id (chat_id timestamp : Str) (chunk_index : Nat)
    (filename : Str) : Str :=
  let base := chat_id ++ '_' :: timestamp ++ '_' :: natRepr chunk_index
  if filename = [] then base else sanitizeFilename filename ++ '_' :: base

example :
    generate_chunk_id "chat1".data "20250101_120000".data 2 "my doc.pdf".data =
      "my_doc.pdf_chat1_20250101_120000_2".data := by decide

/-! ## FastAPI retrieval (`rag_langgraph.py` 258-327)

`_retrieve_documents_node` zips the ChromaDB query output
(`documents/metadatas/distances`), keeps entries with similarity
`1 - distance > 0.3`, builds one citation per kept entry and a context
from the first three kept entries. -/

/-- `enumerate`: map with the running index. -/
def enumMapFrom (f : Nat → α → β) : Nat → List α → List β
  | _, [] => []
  | i, a :: t => f i a :: enumMapFrom f (i + 1) t

/-- `enumerate` starting at 0. -/
def enumMap (f : Nat → α → β) (l : List α) : List β := enumMapFrom f 0 l

/-- One zipped ChromaDB query result of the FastAPI workflow: document
text, the metadata fields the node reads, and the distance. -/
structure FaResult where
  document : String
  filename : String
  chunk_index : Nat
  distance : ℚ
deriving DecidableEq

/-- One entry of `retrieved_docs` in the FastAPI workflow. -/
structure FaRetrieved where
  content : String
  filename : String
  chunk_index : Nat
  similarity_score : ℚ
deriving DecidableEq

/-- The `retrieved_docs` entry built from a query result. -/
def faMkRetrieved (r : FaResult) : FaRetrieved :=
  ⟨r.document, r.filename, r.chunk_index, 1 - r.distance⟩

/-- The citation string `"{filename} (section {chunk_index + 1})"`. -/
def faCitation (r : FaResult) : String :=
  r.filename ++ " (section " ++ Nat.repr (r.chunk_index + 1) ++ ")"

/-- The context block `"[Document {i+1}]: {content}"`. -/
def faBlock (i : Nat) (d : FaRetrieved) : String :=
  "[Document " ++ Nat.repr (i + 1) ++ "]: " ++ d.content

/-- Output of the retrieval formatting: `retrieved_docs`, `citations`,
the individual context blocks, and the joined `context`. -/
structure FaRetrieval where
  retrieved_docs : List FaRetrieved
  citations : List String
  context_parts : List String
  context : String
deriving DecidableEq

/-- The result-formatting part of `_retrieve_documents_node`: filter by
`similarity_score > 0.3` (building `retrieved_docs` and `citations` in
the same pass), then format the top 3 kept results as the context. -/
def fa_retrieve_from (results : List FaResult) : FaRetrieval :=
  let kept := results.filter (fun r => decide ((3 : ℚ)/10 < 1 - r.distance))
  let retrieved := kept.map faMkRetrieved
  let citations := kept.map faCitation
  let parts := enumMap faBlock (retrieved.take 3)
  let context := if retrieved ≠ [] then String.intercalate "\n\n" parts else ""
  ⟨retrieved, citations, parts, context⟩

example :
    fa_retrieve_from [⟨"alpha", "a.pdf", 0, 1/10⟩, ⟨"beta", "b.pdf", 3, 8/10⟩] =
      ⟨[⟨"alpha", "a.pdf", 0, 9/10⟩], ["a.pdf (section 1)"],
        ["[Document 1]: alpha"], "[Document 1]: alpha"⟩ := by
  norm_num [fa_retrieve_from, List.filter, faMkRetrieved, faCitation, enumMap,
    enumMapFrom, faBlock, String.intercalate]
  decide

/-! ## RAG_Server retrieval and context assembly
(`langgraph_workflow.py` 500-576)

`retrieve_documents_node` keeps every query result (no similarity
filtering); `generate_response_node` labels every retrieved document into
the context. -/

/-- One ChromaDB query result of the RAG_Server workflow (the metadata is
carried through unread and is omitted). -/
structure RagQR where
  document : String
  distance : ℚ
deriving DecidableEq

/-- One entry of `retrieved_docs` in the RAG_Server workflow. -/
structure RagRetrieved where
  document_text : String
  distance : ℚ
deriving DecidableEq

/-- `retrieve_documents_node`'s result formatting: every query result
becomes a retrieved document, unfiltered. -/
def ragRetrievedFrom (results : List RagQR) : List RagRetrieved :=
  results.map (fun r => ⟨r.document, r.distance⟩)

/-- The context blocks of `generate_response_node`:
`"Document {i+1}:\n{document_text}\n"` for every retrieved document. -/
def ragContextParts (docs : List RagRetrieved) : List String :=
  enumMap (fun i d => "Document " ++ Nat.repr (i + 1) ++ ":\n" ++ d.document_text ++ "\n") docs

/-! ## File-format checks (`doc_utils.py` 533-541, `document_manager.py` 37-40) -/

/-- The extension of `filename.lower()`, as a Lean string. -/
def lowerExt (filename : String) : String :=
  String.mk (splitextExt (filename.data.map pyLowerChar))

/-- `DocumentManager._is_supported_format` (and identically
`MustanDocumentManager._is_supported_format`): extension membership in
the `supported_formats` keys. -/
def is_supported_format (filename : String) : Bool :=
  lowerExt filename == ".pdf" || lowerExt filename == ".docx" || lowerExt filename == ".txt"

/-- `DocumentHandler.check_document_type`: `type_mapping.get(ext,
'unsupported')`. -/
def check_document_type (filename : String) : String :=
  if lowerExt filename = ".pdf" then "pdf"
  else if lowerExt filename = ".docx" then "word"
  else if lowerExt filename = ".txt" then "txt"
  else "unsupported"

example : check_document_type "virus.exe" = "unsupported" := by decide
example : check_document_type "Notes.TXT" = "txt" := by decide
example : is_supported_format "a.PDF" = true := by decide

/-! ## The FastAPI workflow (`rag_langgraph.py` 96-409)

The graph is `check_document` then, by `_should_process_document`, either
`handle_error`, or (`process_document` when a document is present) →
`embed_query` → `wait_for_processing` → `retrieve_documents` →
`generate_response`.  External collaborators are parameters of `FaEnv`:
text extraction, the NLTK-backed `clean_text`, the sentence-transformer
encoder, the ChromaDB collection (presence and similarity search), the
per-chunk `add_document_to_chat` (which draws its ids from the wall
clock), and the Generator.  The Generator is `LocalOllamaLLM
.generate_response`; modelled from the spec: §4.6 treats it as the black
box `(query, context) → response text`. -/

/-- An uploaded document of the FastAPI workflow. -/
structure FaDoc where
  filename : String
  content : List Nat
deriving DecidableEq

/-- The `RAGState` TypedDict of the FastAPI workflow. -/
structure FaState where
  chat_id : String
  user_id : String
  query : String
  document : Option FaDoc
  document_chunks : List String
  query_embedding : Emb
  retrieved_docs : List FaRetrieved
  context : String
  response : String
  citations : List String
  doc_chunk_ids : List String
  error : Option String
  processing_status : String

/-- The external collaborators of the FastAPI workflow. -/
structure FaEnv where
  extract : List Nat → String → String
  clean_text : String → String
  embed : String → Emb
  add_document_to_chat : String → String → String → Emb → String
  collection_exists : Bool
  query_results : Emb → Nat → List FaResult
  generate : String → String → String

/-- `DocumentManager.chunk_text` (`document_manager.py` 115-148): the
same loop as `chunk_text` above, collecting only the chunk strings. -/
def faChunkTextLoop (text : Str) (chunk_size overlap : Nat) :
    Nat → Nat → List Str → Option (List Str)
  | 0, _, _ => none
  | fuel + 1, start, acc =>
    if start < text.length then
      let e := chunkTextEnd text chunk_size start
      let ct := pyStrip (pySlice text start e)
      let acc2 := if ct ≠ [] then acc ++ [ct] else acc
      let start2 := e - overlap
      if text.length ≤ start2 then some acc2
      else faChunkTextLoop text chunk_size overlap fuel start2 acc2
    else some acc

/-- `DocumentManager.chunk_text`, at the `List String` interface the
FastAPI workflow consumes. -/
def fa_chunk_text (text : String) (chunk_size overlap : Nat) : List String :=
  if text.data.length ≤ chunk_size then [text]
  else ((faChunkTextLoop text.data chunk_size overlap (text.data.length + 1) 0 []).getD []).map
    String.mk

/-- `_check_document_node`: validate content, filename and extension of a
present document; no document is not an error. -/
def fa_check_document_node (s : FaState) : FaState :=
  match s.document with
  | some d =>
    if d.content = [] ∨ d.filename = "" then
      { s with error := some "Invalid document format" }
    else if ¬ is_supported_format d.filename then
      { s with error := some ("Unsupported file format: " ++ d.filename) }
    else { s with processing_status := "document_validated" }
  | none => { s with processing_status := "no_document" }

/-- `_should_process_document`: route on error and document presence. -/
def fa_should_process_document (s : FaState) : String :=
  if s.error.isSome then "error"
  else if s.document.isSome then "process" else "skip"

/-- `_process_document_node`: extract, clean, chunk, then embed and store
each chunk in turn, collecting the returned chunk ids. -/
def fa_process_document_node (env : FaEnv) (s : FaState) : FaState :=
  match s.document with
  | none => s
  | some d =>
    let extracted := env.extract d.content d.filename
    let cleaned := env.clean_text extracted
    let chunks := fa_chunk_text cleaned 1000 200
    let ids := chunks.map (fun ch =>
      env.add_document_to_chat s.chat_id extracted ch (env.embed ch))
    { s with document_chunks := chunks, doc_chunk_ids := ids,
             processing_status := "document_processed" }

/-- `_embed_query_node`: embed the (unmodified) query. -/
def fa_embed_query_node (env : FaEnv) (s : FaState) : FaState :=
  { s with query_embedding := env.embed s.query, processing_status := "query_embedded" }

/-- `_wait_for_processing_node`: the fixed `asyncio.sleep(0.1)`
synchronization point; only the status changes. -/
def fa_wait_for_processing_node (s : FaState) : FaState :=
  { s with processing_status := "ready_for_retrieval" }

/-- `_retrieve_documents_node`: empty results when no collection exists,
otherwise query ChromaDB with `n_results=5` and format
(`fa_retrieve_from`). -/
def fa_retrieve_documents_node (env : FaEnv) (s : FaState) : FaState :=
  if env.collection_exists then
    let r := fa_retrieve_from (env.query_results s.query_embedding 5)
    { s with retrieved_docs := r.retrieved_docs, context := r.context,
             citations := r.citations, processing_status := "documents_retrieved" }
  else
    { s with retrieved_docs := [], context := "", citations := [] }

/-- `_generate_response_node`: call the Generator with the state's query
and context; on success the status becomes `completed`. -/
def fa_generate_response_node (env : FaEnv) (s : FaState) : FaState :=
  { s with response := env.generate s.query s.context,
           processing_status := "completed" }

/-- `_handle_error_node`. -/
def fa_handle_error_node (s : FaState) : FaState :=
  { s with response := "I apologize, but I encountered an error: " ++
             (s.error.getD "Unknown error occurred"),
           processing_status := "error" }

/-- The initial `RAGState` built by `process_rag_request`. -/
def fa_initial_state (chat_id user_id query : String) (document : Option FaDoc) :
    FaState :=
  ⟨chat_id, user_id, query, document, [], [], [], "", "", [], [], none, "initialized"⟩

/-- `process_rag_request`'s `workflow.ainvoke`: the node sequence of the
compiled graph. -/
def fa_run (env : FaEnv) (chat_id user_id query : String)
    (document : Option FaDoc) : FaState :=
  let s1 := fa_check_document_node (fa_initial_state chat_id user_id query document)
  if fa_should_process_document s1 = "error" then fa_handle_error_node s1
  else
    let s2 := if fa_should_process_document s1 = "process"
              then fa_process_document_node env s1 else s1
    fa_generate_response_node env
      (fa_retrieve_documents_node env
        (fa_wait_for_processing_node (fa_embed_query_node env s2)))

/-! ## The RAG_Server workflow (`langgraph_workflow.py` 77-651)

The graph wires `initialize` into two branches — the query branch
`clean_query → embed_query` and the document branch `check_documents →
extract_text → clean_documents → chunk_documents → embed_documents →
store_in_chromadb` — joined at `wait_for_processing`, then
`retrieve_documents → generate_response`.  Every edge is unconditional:
the document branch runs (through `store_in_chromadb`) even when no
document is present.  Nodes execute here in a topological order of the
edges; the two branches touch disjoint state fields.  Calls into
`chroma_manager` (`config/chromaDB.py`) are recorded in an operation
trace and interpreted against an explicit collection store. -/

/-- An uploaded document of the RAG_Server workflow. -/
structure RagDoc where
  filename : String
  content : List Nat
deriving DecidableEq

/-- An operation issued to ChromaDB. -/
inductive ChromaOp where
  | create_collection (chat_id : String)
  | get_collection (chat_id : String)
  | add (chat_id : String) (ids : List Str) (documents : List String)
  | query (chat_id : String) (n_results : Nat)
deriving DecidableEq

/-- The ChromaDB collections: name to stored document texts. -/
abbrev ChromaStore := List (String × List String)

/-- Look a collection up by name. -/
def storeGet (st : ChromaStore) (name : String) : Option (List String) :=
  (st.find? (fun p => p.1 == name)).map Prod.snd

/-- `ChromaDBManager.create_collection`: create the collection unless it
already exists (in which case the call returns a warning and changes
nothing). -/
def storeCreate (st : ChromaStore) (name : String) : ChromaStore :=
  if (storeGet st name).isSome then st else st ++ [(name, [])]

/-- `collection.add`: append the documents to the named collection. -/
def storeAdd (st : ChromaStore) (name : String) (docs : List String) : ChromaStore :=
  st.map (fun p => if p.1 == name then (p.1, p.2 ++ docs) else p)

/-- An `extracted_texts` entry. -/
structure RagExtracted where
  filename : String
  original_text : String
deriving DecidableEq

/-- A `cleaned_documents` entry. -/
structure RagCleaned where
  filename : String
  original_text : String
  cleaned_text : String
deriving DecidableEq

/-- A `chunked_documents` entry. -/
structure RagChunked where
  filename : String
  original_text : String
  cleaned_text : String
  chunks : List SChunk
deriving DecidableEq

/-- An `embedded_chunks` entry (`all_chunks` plus its embedding). -/
structure RagEmbChunk where
  doc_filename : String
  original_text : String
  chunk_data : SChunk
  embedding : Emb
deriving DecidableEq

/-- The `RAGState` TypedDict of the RAG_Server workflow (the logger field
is omitted). -/
structure RagState where
  queryText : String
  documents : List RagDoc
  chat_id : String
  doc_processing_completed : Bool
  query_cleaned : String
  extracted_texts : List RagExtracted
  cleaned_documents : List RagCleaned
  chunked_documents : List RagChunked
  embedded_chunks : List RagEmbChunk
  chromadb_chunks : List RagEmbChunk
  query_embedding : Emb
  retrieved_docs : List RagRetrieved
  final_response : String
  errors : List String

/-- Workflow state together with the ChromaDB store and operation trace. -/
structure RagWorld where
  state : RagState
  store : ChromaStore
  trace : List ChromaOp

/-- The external collaborators of the RAG_Server workflow:
`_sonnet_clean_text_advanced` (spaCy inside), the per-text embedder
(spec §4.3), `extract_text_from_file`, the similarity search of
`collection.query`, and the wall clock read by `generate_chunk_id`. -/
structure RagEnv where
  sonnet_clean : String → String
  embed_one : String → Emb
  extract : List Nat → String → String
  query_top : List String → Emb → Nat → List RagQR
  timestamp : Str

/-- `initialize_node`: reset the completion flag and the error list. -/
def rag_initialize_node (s : RagState) : RagState :=
  { s with doc_processing_completed := false, errors := [] }

/-- `clean_query_node`. -/
def rag_clean_query_node (env : RagEnv) (s : RagState) : RagState :=
  { s with query_cleaned := env.sonnet_clean s.queryText }

/-- `check_documents_node`: with no documents, mark processing completed;
otherwise keep only the supported documents and mark completed when none
survive.  Unsupported documents are dropped without recording an
error. -/
def rag_check_documents_node (s : RagState) : RagState :=
  if s.documents = [] then { s with doc_processing_completed := true }
  else
    let supported := s.documents.filter
      (fun d => !(check_document_type d.filename == "unsupported"))
    { s with documents := supported, doc_processing_completed := supported = [] }

/-- `extract_text_node`: skip documents without content, extract the
rest. -/
def rag_extract_text_node (env : RagEnv) (s : RagState) : RagState :=
  { s with extracted_texts := s.documents.filterMap (fun d =>
      if d.content = [] then none
      else some ⟨d.filename, env.extract d.content d.filename⟩) }

/-- `clean_documents_node`. -/
def rag_clean_documents_node (env : RagEnv) (s : RagState) : RagState :=
  { s with cleaned_documents := s.extracted_texts.map (fun d =>
      ⟨d.filename, d.original_text, env.sonnet_clean d.original_text⟩) }

/-- `chunk_documents_node`: `_sonnet_chunk_text_intelligent` with
`max_chunk_size=1000, overlap_size=200` (and the default
`min_chunk_size=100`). -/
def rag_chunk_documents_node (s : RagState) : RagState :=
  { s with chunked_documents := s.cleaned_documents.map (fun d =>
      ⟨d.filename, d.original_text, d.cleaned_text,
        sonnet_chunk_text_intelligent d.cleaned_text.data 1000 200 100⟩) }

/-- `embed_documents_node`: flatten all chunks, embed their texts with
`_sonnet_generate_embeddings_batched`, and zip chunks with embeddings by
position. -/
def rag_embed_documents_node (env : RagEnv) (s : RagState) : RagState :=
  let all_chunks := s.chunked_documents.flatMap (fun d =>
    d.chunks.map (fun ch => (d.filename, d.original_text, ch)))
  let chunk_texts := all_chunks.map (fun c => String.mk c.2.2.text)
  let embeddings := sonnet_generate_embeddings_batched env.embed_one 32 chunk_texts
  let embedded := List.zipWith (fun c e => RagEmbChunk.mk c.1 c.2.1 c.2.2 e) all_chunks embeddings
  { s with embedded_chunks := embedded }

/-- `embed_query_node`: `generate_embeddings([query_cleaned])[0]`. -/
def rag_embed_query_node (env : RagEnv) (s : RagState) : RagState :=
  { s with query_embedding := (generate_embeddings env.embed_one [s.query_cleaned]).headD [] }

/-- `store_in_chromadb_node`: ensure the collection exists, fetch it, and
issue one `add` with a `generate_chunk_id` id and the
original-text slice `original_text[start_pos:end_pos]` for every embedded
chunk — also when there are none. -/
def rag_store_in_chromadb_node (env : RagEnv) (w : RagWorld) : RagWorld :=
  let cid := w.state.chat_id
  let st1 := storeCreate w.store cid
  let entries := enumMap (fun i c =>
    (generate_chunk_id cid.data env.timestamp i c.doc_filename.data,
      String.mk (pySlice c.original_text.data c.chunk_data.start_pos c.chunk_data.end_pos)))
    w.state.embedded_chunks
  let ids := entries.map Prod.fst
  let docs := entries.map Prod.snd
  let s2 := { w.state with
              doc_processing_completed := true
              chromadb_chunks := w.state.embedded_chunks }
  let tr2 := w.trace ++ [ChromaOp.create_collection cid, ChromaOp.get_collection cid,
    ChromaOp.add cid ids docs]
  ⟨s2, storeAdd st1 cid docs, tr2⟩

/-- `wait_for_processing_node`: returns the state unchanged. -/
def rag_wait_for_processing_node (w : RagWorld) : RagWorld := w

/-- `retrieve_documents_node`: an empty query embedding raises (caught and
recorded); a missing collection yields empty results without an error;
otherwise query with `n_results=5` and keep everything. -/
def rag_retrieve_documents_node (env : RagEnv) (w : RagWorld) : RagWorld :=
  if w.state.query_embedding = [] then
    let s2 := { w.state with
                retrieved_docs := ([] : List RagRetrieved)
                errors := w.state.errors ++
                  ["Document retrieval error: No query embedding available"] }
    { w with state := s2 }
  else
    let cid := w.state.chat_id
    match storeGet w.store cid with
    | none =>
      { w with state := { w.state with retrieved_docs := ([] : List RagRetrieved) },
               trace := w.trace ++ [ChromaOp.get_collection cid] }
    | some docs =>
      let retrieved := ragRetrievedFrom (env.query_top docs w.state.query_embedding 5)
      { w with state := { w.state with retrieved_docs := retrieved },
               trace := w.trace ++ [ChromaOp.get_collection cid, ChromaOp.query cid 5] }

/-- `generate_response_node`: label every retrieved document into the
context and fill the fixed response template (a placeholder — no LLM is
invoked in this workflow). -/
def rag_generate_response_node (s : RagState) : RagState :=
  let context := String.intercalate "\n" (ragContextParts s.retrieved_docs)
  let response :=
    if s.retrieved_docs ≠ [] then
      "Based on the provided documents, here\x27s the response to your query: \"" ++
        s.queryText ++ "\"\n\nRetrieved Context:\n" ++ context ++
        "\n\nThis is a placeholder response. In a full implementation, this would be " ++
        "generated by Google AI Studio Gemini or another LLM using the query and context above."
    else
      "I couldn\x27t find relevant documents to answer your query: \"" ++ s.queryText ++
        "\"\n\nThis might be because:\n1. No documents were provided\n2. The documents " ++
        "don\x27t contain relevant information\n3. There was an error in processing\n\n" ++
        "Please try providing more relevant documents or rephrasing your query."
  { s with final_response := response }

/-- What `run_workflow` returns to its caller. -/
structure RagResult where
  chat_id : String
  query : String
  response : String
  errors : List String
  doc_processing_completed : Bool
  retrieved_docs_count : Nat
  total_chunks_processed : Nat
deriving DecidableEq

/-- Lift a state-only node to the world. -/
def ragLift (f : RagState → RagState) (w : RagWorld) : RagWorld :=
  { w with state := f w.state }

/-- `run_workflow`: execute the graph on an initial state carrying the
query, documents and (explicitly supplied) chat id against the ChromaDB
store `store0`, and package the result record. -/
def rag_run_workflow (env : RagEnv) (query : String) (documents : List RagDoc)
    (chat_id : String) (store0 : ChromaStore) : RagResult × List ChromaOp :=
  let s0 : RagState := ⟨query, documents, chat_id, false, "", [], [], [], [], [], [], [], "", []⟩
  let w0 : RagWorld := ⟨s0, store0, []⟩
  let w1 := ragLift (rag_clean_query_node env) (ragLift rag_initialize_node w0)
  let w2 := ragLift (rag_embed_query_node env) w1
  let w3 := ragLift (rag_embed_documents_node env)
    (ragLift rag_chunk_documents_node
      (ragLift (rag_clean_documents_node env)
        (ragLift (rag_extract_text_node env)
          (ragLift rag_check_documents_node w2))))
  let w4 := rag_store_in_chromadb_node env w3
  let w5 := rag_retrieve_documents_node env (rag_wait_for_processing_node w4)
  let w6 := ragLift rag_generate_response_node w5
  (⟨chat_id, query, w6.state.final_response, w6.state.errors,
     w6.state.doc_processing_completed, w6.state.retrieved_docs.length,
     w6.state.chromadb_chunks.length⟩, w6.trace)

/-! ## Supporting lemmas for the chunkers -/

/-- The intelligent chunker's next window start strictly increases:
`max(start + 1, end - overlap)` is at least `start + 1`. -/
theorem sonnetNextStart_gt (text : Str) (mc ov minc start : Nat) :
    start < sonnetNextStart text mc ov minc start :=
  Nat.lt_of_lt_of_le (Nat.lt_succ_self start) (Nat.le_max_left _ _)

/-- Fuel exceeding the remaining text length never runs out in
`sonnetLoop`. -/
theorem sonnetLoop_isSome (text : Str) (mc ov minc : Nat) :
    ∀ fuel start acc, text.length - start < fuel →
      (sonnetLoop text mc ov minc fuel start acc).isSome = true := by
  intro fuel
  induction fuel with
  | zero => intro start acc h; omega
  | succ n ih =>
    intro start acc h
    rw [sonnetLoop]
    by_cases hs : start < text.length
    · simp only [hs, if_true]
      have hstep : start + 1 ≤ max (start + 1)
          (sonnetEnd text mc minc start - ov) := Nat.le_max_left _ _
      by_cases h2 : text.length ≤ max (start + 1) (sonnetEnd text mc minc start - ov)
      · simp [h2]
      · simp only [h2, if_false]
        exact ih _ _ (by omega)
    · simp [hs]

/-- The slice `s[a:b]` has length `min b |s| - a`. -/
theorem pySlice_length (s : Str) (a b : Nat) :
    (pySlice s a b).length = min b s.length - a := by
  simp [pySlice]

/-- Characters of a slice are characters of the string. -/
theorem mem_of_mem_pySlice {s : Str} {a b : Nat} {c : Char}
    (h : c ∈ pySlice s a b) : c ∈ s :=
  List.mem_of_mem_take (List.mem_of_mem_drop h)

/-- A whitespace run is no longer than the rest of the string. -/
theorem wsRunLen_le (s : Str) (i : Nat) : wsRunLen s i ≤ s.length - i := by
  simpa [wsRunLen] using
    Nat.le_trans (List.takeWhile_sublist _).length_le (Nat.le_of_eq (List.length_drop i s))

/-- A newline run is no longer than the rest of the string. -/
theorem nlRunLen_le (s : Str) (i : Nat) : nlRunLen s i ≤ s.length - i := by
  simpa [nlRunLen] using
    Nat.le_trans (List.takeWhile_sublist _).length_le (Nat.le_of_eq (List.length_drop i s))

/-- `Option.any` extraction. -/
theorem option_any_some {α : Type} {o : Option α} {p : α → Bool}
    (h : o.any p = true) : ∃ c, o = some c ∧ p c = true := by
  cases o with
  | none => simp [Option.any] at h
  | some c => exact ⟨c, rfl, by simpa [Option.any] using h⟩

/-- Every `boundary_patterns` match ends within the searched string. -/
theorem boundaryPatterns_matchEnd_le {m : Str → Nat → Option Nat}
    (hm : m ∈ boundaryPatterns) {s : Str} {i me : Nat} (h : m s i = some me) :
    me ≤ s.length := by
  have hget : ∀ {j : Nat} {c : Char}, s.get? j = some c → j < s.length := by
    intro j c hj
    exact List.get?_eq_some.mp hj |>.1
  simp only [boundaryPatterns, List.mem_cons, List.not_mem_nil, or_false] at hm
  rcases hm with rfl | rfl | rfl | rfl | rfl | rfl
  · simp only [mEndParaBreak] at h
    split at h
    · rename_i hcond
      cases h
      simp only [Bool.and_eq_true, beq_iff_eq] at hcond
      obtain ⟨⟨h1, _⟩, _⟩ := hcond
      have := hget h1
      have := nlRunLen_le s i
      omega
    · exact absurd h (by simp)
  · simp only [mEndSentCap] at h
    split at h
    · rename_i hcond
      cases h
      simp only [Bool.and_eq_true, beq_iff_eq] at hcond
      obtain ⟨⟨_, _⟩, h3⟩ := hcond
      obtain ⟨c, hc, _⟩ := option_any_some h3
      have := hget hc
      omega
    · exact absurd h (by simp)
  · simp only [mEndSentWs] at h
    split at h
    · rename_i hcond
      cases h
      simp only [Bool.and_eq_true] at hcond
      obtain ⟨_, h2⟩ := hcond
      obtain ⟨c, hc, _⟩ := option_any_some h2
      have := hget hc
      have := wsRunLen_le s (i + 1)
      omega
    · exact absurd h (by simp)
  · simp only [mEndNewline] at h
    split at h
    · rename_i hcond
      cases h
      simp only [beq_iff_eq] at hcond
      have := hget hcond
      omega
    · exact absurd h (by simp)
  · simp only [mEndClauseWs] at h
    split at h
    · rename_i hcond
      cases h
      simp only [Bool.and_eq_true] at hcond
      obtain ⟨_, h2⟩ := hcond
      obtain ⟨c, hc, _⟩ := option_any_some h2
      have := hget hc
      have := wsRunLen_le s (i + 1)
      omega
    · exact absurd h (by simp)
  · simp only [mEndWs] at h
    split at h
    · rename_i hcond
      cases h
      simp only [Bool.and_eq_true] at hcond
      obtain ⟨h1, _⟩ := hcond
      obtain ⟨c, hc, _⟩ := option_any_some h1
      have := hget hc
      have := wsRunLen_le s i
      omega
    · exact absurd h (by simp)

/-- A produced `lastMatchEnd` lies within the searched string. -/
theorem lastMatchEnd_le {m : Str → Nat → Option Nat} (hm : m ∈ boundaryPatterns)
    {s : Str} {me : Nat} (h : lastMatchEnd m s = some me) : me ≤ s.length := by
  have hmem : me ∈ (List.range s.length).filterMap (m s) :=
    List.mem_of_mem_getLast? h
  rw [List.mem_filterMap] at hmem
  obtain ⟨i, _, hi⟩ := hmem
  exact boundaryPatterns_matchEnd_le hm hi

/-- The boundary search returns the raw window end or a position in
`(start + min_chunk_size, e]`. -/
theorem findBestBoundary_spec (text : Str) (start minc e : Nat) :
    findBestBoundary text start minc e = e ∨
      (start + minc < findBestBoundary text start minc e ∧
        findBestBoundary text start minc e ≤ e) := by
  unfold findBestBoundary
  set ss := max (start + minc) (e - 200) with hss
  set st := pySlice text ss e with hst
  have hstlen : st.length = min e text.length - ss := pySlice_length text ss e
  have key : ∀ pats : List (Str → Nat → Option Nat),
      (∀ m ∈ pats, m ∈ boundaryPatterns) →
      tryPatterns ss (start + minc) e st pats = e ∨
        (start + minc < tryPatterns ss (start + minc) e st pats ∧
          tryPatterns ss (start + minc) e st pats ≤ e) := by
    intro pats
    induction pats with
    | nil => intro _; left; rfl
    | cons m rest ih =>
      intro hp
      have hm : m ∈ boundaryPatterns := hp m (List.mem_cons_self m rest)
      have hrest : ∀ m2 ∈ rest, m2 ∈ boundaryPatterns := fun m2 h2 =>
        hp m2 (List.mem_cons_of_mem m h2)
      cases hlm : lastMatchEnd m st with
      | none =>
        have hres : tryPatterns ss (start + minc) e st (m :: rest) =
            tryPatterns ss (start + minc) e st rest := by
          rw [tryPatterns, hlm]
        rw [hres]
        exact ih hrest
      | some me =>
        have hme : me ≤ st.length := lastMatchEnd_le hm hlm
        have hstpos : 0 < st.length := by
          rcases Nat.eq_zero_or_pos st.length with hz | hpos
          · exfalso
            have hnil : (List.range st.length).filterMap (m st) = [] := by
              rw [hz]; rfl
            rw [lastMatchEnd, hnil] at hlm
            cases hlm
          · exact hpos
        by_cases hgt : start + minc < ss + me
        · have hres : tryPatterns ss (start + minc) e st (m :: rest) = ss + me := by
            rw [tryPatterns, hlm]
            simp [hgt]
          rw [hres]
          right
          refine ⟨hgt, ?_⟩
          have hminle : min e text.length ≤ e := Nat.min_le_left _ _
          omega
        · have hres : tryPatterns ss (start + minc) e st (m :: rest) =
              tryPatterns ss (start + minc) e st rest := by
            rw [tryPatterns, hlm]
            simp [hgt]
          rw [hres]
          exact ih hrest
  exact key boundaryPatterns (fun m hm => hm)

/-- The window end of an intelligent-chunker iteration stays within the
text. -/
theorem sonnetEnd_le (text : Str) (mc minc start : Nat) :
    sonnetEnd text mc minc start ≤ text.length := by
  simp only [sonnetEnd]
  split
  · rename_i hlt
    rcases findBestBoundary_spec text start minc (min (start + mc) text.length) with h | h
    · omega
    · have := Nat.min_le_right (start + mc) text.length
      omega
  · exact Nat.min_le_right _ _

/-! ## Claim C6 — chunker termination -/

/-- C6 (counterexample): `chunk_text` with `max_chunk_size = 2`,
`overlap_size = 2` on the three-character text `"aaa"` computes the next
window start `end - overlap = 0` from `start = 0` — the window start does
not increase although the window lies strictly inside the text — and the
loop never returns, no matter how much fuel it is given beyond the bound
`length + 1` that suffices for every terminating run (50 here; the state
repeats, so no fuel is enough).  The identical loop of the FastAPI
`DocumentManager.chunk_text` stalls the same way. -/
theorem chunk_text_no_progress_cex :
    chunkTextNextStart "aaa".data 2 2 0 = 0 ∧ 0 < ("aaa".data).length ∧
    chunkTextLoop "aaa".data 2 2 50 0 [] = none ∧
    faChunkTextLoop "aaa".data 2 2 50 0 [] = none := by decide

/-- C6 (amended): the intelligent chunker `_sonnet_chunk_text_intelligent`
— the one the workflow's `chunk_documents_node` actually invokes — makes
strict forward progress for every parameter choice (its next window start
is `max(start+1, end-overlap) > start`, also when
`overlap_size ≥ max_chunk_size`), so its loop terminates within
`length + 1` iterations on every input. -/
theorem sonnet_chunker_terminates (text : Str)
    (max_chunk_size overlap_size min_chunk_size : Nat) :
    (∀ start, start <
      sonnetNextStart text max_chunk_size overlap_size min_chunk_size start) ∧
    (sonnetLoop text max_chunk_size overlap_size min_chunk_size
      (text.length + 1) 0 []).isSome = true :=
  ⟨fun start => sonnetNextStart_gt text max_chunk_size overlap_size min_chunk_size start,
    sonnetLoop_isSome text max_chunk_size overlap_size min_chunk_size
      (text.length + 1) 0 [] (by omega)⟩

/-! ## Claim C7 — chunk offset invariants -/

/-- A non-empty stripped window means the window itself is non-empty. -/
theorem pySlice_ne_nil_of_pyStrip {s : Str} (h : pyStrip s ≠ []) : s ≠ [] := by
  intro hnil
  exact h (by rw [hnil]; rfl)

/-- Emitted windows satisfy `start < end`. -/
theorem start_lt_of_strip_ne_nil {text : Str} {start e : Nat}
    (h : pyStrip (pySlice text start e) ≠ []) : start < e := by
  have hne := pySlice_ne_nil_of_pyStrip h
  have hpos : 0 < (pySlice text start e).length := List.length_pos.mpr hne
  rw [pySlice_length] at hpos
  have := Nat.min_le_left e text.length
  omega

/-- Loop invariant of the intelligent chunker: every accumulated chunk has
`start_pos < end_pos ≤ length`, and the chunk indices are `0, 1, …` in
order. -/
theorem sonnetLoop_invariant (text : Str) (mc ov minc : Nat) :
    ∀ fuel start acc res,
      sonnetLoop text mc ov minc fuel start acc = some res →
      (∀ c ∈ acc, c.start_pos < c.end_pos ∧ c.end_pos ≤ text.length) →
      acc.map SChunk.chunk_index = List.range acc.length →
      (∀ c ∈ res, c.start_pos < c.end_pos ∧ c.end_pos ≤ text.length) ∧
      res.map SChunk.chunk_index = List.range res.length := by
  intro fuel
  induction fuel with
  | zero =>
    intro start acc res h
    simp [sonnetLoop] at h
  | succ n ih =>
    intro start acc res h hacc hidx
    rw [sonnetLoop] at h
    by_cases hs : start < text.length
    · rw [if_pos hs] at h
      dsimp only at h
      set e := sonnetEnd text mc minc start with he
      set ct := pyStrip (pySlice text start e) with hct
      by_cases hem : ct ≠ [] ∧ minc ≤ ct.length
      · rw [if_pos hem] at h
        have hnew : ∀ c ∈ acc ++ [SChunk.mk ct acc.length 0 start e (pyWordCount ct)],
            c.start_pos < c.end_pos ∧ c.end_pos ≤ text.length := by
          intro c hc
          rw [List.mem_append] at hc
          rcases hc with hc | hc
          · exact hacc c hc
          · rw [List.mem_singleton] at hc
            subst hc
            exact ⟨start_lt_of_strip_ne_nil hem.1, sonnetEnd_le text mc minc start⟩
        have hnewidx : (acc ++ [SChunk.mk ct acc.length 0 start e (pyWordCount ct)]).map
            SChunk.chunk_index =
            List.range (acc ++ [SChunk.mk ct acc.length 0 start e (pyWordCount ct)]).length := by
          rw [List.map_append, hidx, List.length_append]
          simp [List.range_succ]
        by_cases hx : text.length ≤ max (start + 1) (e - ov)
        · rw [if_pos hx] at h
          cases h
          exact ⟨hnew, hnewidx⟩
        · rw [if_neg hx] at h
          exact ih _ _ _ h hnew hnewidx
      · rw [if_neg hem] at h
        by_cases hx : text.length ≤ max (start + 1) (e - ov)
        · rw [if_pos hx] at h
          cases h
          exact ⟨hacc, hidx⟩
        · rw [if_neg hx] at h
          exact ih _ _ _ h hacc hidx
    · rw [if_neg hs] at h
      cases h
      exact ⟨hacc, hidx⟩

/-- C7 (amended): every chunk of the intelligent chunker — the chunker the
workflow invokes — satisfies `0 ≤ start_pos < end_pos ≤ len(text)` on a
non-empty text, and the chunks carry the indices `0, 1, 2, …` in order.
(The amendment: the claim quantified over the plain `chunk_text` loops as
well, where the final window's recorded `end_pos = start + max_chunk_size`
may exceed `len(text)` — the counterexample — and an empty text makes even
the single-chunk case emit `start_pos = end_pos = 0`.) -/
theorem sonnet_chunk_invariants (text : Str) (mc ov minc : Nat)
    (h : 0 < text.length) :
    (∀ c ∈ sonnet_chunk_text_intelligent text mc ov minc,
      c.start_pos < c.end_pos ∧ c.end_pos ≤ text.length) ∧
    (sonnet_chunk_text_intelligent text mc ov minc).map SChunk.chunk_index =
      List.range (sonnet_chunk_text_intelligent text mc ov minc).length := by
  unfold sonnet_chunk_text_intelligent
  by_cases hle : text.length ≤ mc
  · rw [if_pos hle]
    constructor
    · intro c hc
      rw [List.mem_singleton] at hc
      subst hc
      exact ⟨h, Nat.le_refl _⟩
    · rfl
  · rw [if_neg hle]
    obtain ⟨r, hr⟩ : ∃ r, sonnetLoop text mc ov minc (text.length + 1) 0 [] = some r :=
      Option.isSome_iff_exists.mp
        (sonnetLoop_isSome text mc ov minc (text.length + 1) 0 [] (by omega))
    have hinv := sonnetLoop_invariant text mc ov minc (text.length + 1) 0 [] r hr
      (by intro c hc; cases hc) rfl
    rw [hr]
    dsimp only [Option.getD]
    constructor
    · intro c hc
      rw [List.mem_map] at hc
      obtain ⟨c0, hc0, rfl⟩ := hc
      exact hinv.1 c0 hc0
    · rw [List.map_map, List.length_map]
      exact hinv.2

/-- C7 (counterexample): `chunk_text "aaa"` with `max_chunk_size = 2`,
`overlap_size = 1` emits a final chunk with `end_pos = 4 > 3 = len(text)`:
the recorded window end is not clamped to the text length. -/
theorem chunk_text_end_pos_overflow_cex :
    (chunk_text "aaa".data 2 1).map CTChunk.end_pos = [2, 3, 4] ∧
    ("aaa".data).length = 3 ∧
    (chunk_text "aaa".data 2 1).any
      (fun c => decide (("aaa".data).length < c.end_pos)) = true := by decide

/-- Witness for `sonnet_chunk_invariants` at the concrete text `"ab"`. -/
theorem sonnet_chunk_invariants_witness :
    0 < ("ab".data).length ∧
    ((∀ c ∈ sonnet_chunk_text_intelligent "ab".data 10 2 1,
        c.start_pos < c.end_pos ∧ c.end_pos ≤ ("ab".data).length) ∧
      (sonnet_chunk_text_intelligent "ab".data 10 2 1).map SChunk.chunk_index =
        List.range (sonnet_chunk_text_intelligent "ab".data 10 2 1).length) :=
  ⟨by decide, sonnet_chunk_invariants "ab".data 10 2 1 (by decide)⟩

/-! ## Claim C8 — chunk coverage -/

/-- `dropWhile` is the identity when the predicate never holds. -/
theorem dropWhile_eq_self_of_false {p : Char → Bool} {s : Str}
    (h : ∀ c ∈ s, p c = false) : s.dropWhile p = s := by
  cases s with
  | nil => rfl
  | cons c t =>
    rw [List.dropWhile_cons, h c (List.mem_cons_self c t)]
    simp

/-- `strip` is the identity on whitespace-free strings. -/
theorem pyStrip_of_no_ws {s : Str} (h : ∀ c ∈ s, isPySpace c = false) :
    pyStrip s = s := by
  unfold pyStrip
  rw [dropWhile_eq_self_of_false h]
  rw [dropWhile_eq_self_of_false (fun c hc => h c (List.mem_reverse.mp hc))]
  exact List.reverse_reverse s

/-- On a window strictly inside the text, the intelligent chunker's end
exceeds its start (when `max_chunk_size > 0`). -/
theorem sonnetEnd_gt (text : Str) (mc minc start : Nat) (hmc : 0 < mc)
    (hs : start < text.length) : start < sonnetEnd text mc minc start := by
  have he0 : start < min (start + mc) text.length := by
    have := Nat.min_le_left (start + mc) text.length
    have := Nat.min_le_right (start + mc) text.length
    rcases Nat.le_total (start + mc) text.length with hcase | hcase
    · rw [Nat.min_eq_left hcase]; omega
    · rw [Nat.min_eq_right hcase]; omega
  simp only [sonnetEnd]
  split
  · rcases findBestBoundary_spec text start minc (min (start + mc) text.length) with hb | hb
    · omega
    · omega
  · exact he0

/-- Coverage invariant of the intelligent chunker with `min_chunk_size = 0`
on whitespace-free text: the emitted chunks cover everything below the
running window start, and the final chunk ends exactly at the text
length. -/
theorem sonnetLoop_cover (text : Str) (mc ov : Nat) (hmc : 0 < mc)
    (hws : ∀ c ∈ text, isPySpace c = false) :
    ∀ fuel start acc res,
      sonnetLoop text mc ov 0 fuel start acc = some res →
      start < text.length →
      (∀ j, j < start → ∃ c ∈ acc, c.start_pos ≤ j ∧ j < c.end_pos) →
      (∀ j, j < text.length → ∃ c ∈ res, c.start_pos ≤ j ∧ j < c.end_pos) ∧
      res.getLast?.map SChunk.end_pos = some text.length := by
  intro fuel
  induction fuel with
  | zero =>
    intro start acc res h
    simp [sonnetLoop] at h
  | succ n ih =>
    intro start acc res h hs hcov
    rw [sonnetLoop, if_pos hs] at h
    dsimp only at h
    set e := sonnetEnd text mc 0 start with he
    have he_le : e ≤ text.length := sonnetEnd_le text mc 0 start
    have he_gt : start < e := sonnetEnd_gt text mc 0 start hmc hs
    have hslice : pySlice text start e ≠ [] := by
      intro hnil
      have := congrArg List.length hnil
      rw [pySlice_length] at this
      simp only [List.length_nil] at this
      rw [Nat.min_eq_left he_le] at this
      omega
    have hct : pyStrip (pySlice text start e) = pySlice text start e :=
      pyStrip_of_no_ws (fun c hc => hws c (mem_of_mem_pySlice hc))
    have hem : pyStrip (pySlice text start e) ≠ [] ∧
        0 ≤ (pyStrip (pySlice text start e)).length := by
      rw [hct]
      exact ⟨hslice, Nat.zero_le _⟩
    rw [if_pos hem] at h
    set newChunk : SChunk :=
      ⟨pyStrip (pySlice text start e), acc.length, 0, start, e,
        pyWordCount (pyStrip (pySlice text start e))⟩ with hnc
    have hcov2 : ∀ j, j < max (start + 1) (e - ov) →
        ∃ c ∈ acc ++ [newChunk], c.start_pos ≤ j ∧ j < c.end_pos := by
      intro j hj
      have hj_lt_e : j < e := by
        rcases Nat.lt_or_ge j start with hlt | hge
        · omega
        · have : j < max (start + 1) (e - ov) := hj
          have h1 : max (start + 1) (e - ov) ≤ e := by
            apply Nat.max_le.mpr
            constructor
            · omega
            · omega
          omega
      rcases Nat.lt_or_ge j start with hlt | hge
      · obtain ⟨c, hc, hcj⟩ := hcov j hlt
        exact ⟨c, List.mem_append_left _ hc, hcj⟩
      · refine ⟨newChunk, List.mem_append_right _ (List.mem_singleton.mpr rfl), ?_, ?_⟩
        · exact hge
        · exact hj_lt_e
    by_cases hx : text.length ≤ max (start + 1) (e - ov)
    · rw [if_pos hx] at h
      cases h
      constructor
      · intro j hj
        exact hcov2 j (by omega)
      · have hlast : (acc ++ [newChunk]).getLast? = some newChunk :=
          List.getLast?_concat _
        rw [hlast]
        have he_eq : e = text.length := by
          rcases le_max_iff.mp hx with hc1 | hc2
          · -- the window already reached the end of the text
            have hstart : start + 1 = text.length := by omega
            have hmin : min (start + mc) text.length = text.length := by
              rcases Nat.le_total (start + mc) text.length with hcase | hcase
              · rw [Nat.min_eq_left hcase]; omega
              · exact Nat.min_eq_right hcase
            rw [he]
            simp only [sonnetEnd, hmin]
            simp
          · omega
        show some e = some text.length
        rw [he_eq]
    · rw [if_neg hx] at h
      exact ih _ _ _ h (by omega) hcov2

/-- C8 (amended): with `min_chunk_size = 0` and a whitespace-free text —
the regime in which no window is dropped by the minimum-size/stripping
filter — the intelligent chunker's chunk ranges cover `[0, len(text))`
completely and the last chunk ends at `len(text)`.  (The amendment
restricts the claim to runs that drop no window: in general a window
whose stripped text is shorter than `min_chunk_size` is silently dropped,
which leaves a gap — the counterexample loses the final two
characters.) -/
theorem sonnet_chunk_coverage (text : Str) (mc ov : Nat) (hmc : 0 < mc)
    (hws : ∀ c ∈ text, isPySpace c = false) :
    (∀ j, j < text.length →
      ∃ c ∈ sonnet_chunk_text_intelligent text mc ov 0,
        c.start_pos ≤ j ∧ j < c.end_pos) ∧
    (sonnet_chunk_text_intelligent text mc ov 0).getLast?.map SChunk.end_pos =
      some text.length := by
  unfold sonnet_chunk_text_intelligent
  by_cases hle : text.length ≤ mc
  · rw [if_pos hle]
    constructor
    · intro j hj
      exact ⟨⟨text, 0, 1, 0, text.length, pyWordCount text⟩,
        List.mem_singleton.mpr rfl, Nat.zero_le j, hj⟩
    · rfl
  · rw [if_neg hle]
    have hlen : 0 < text.length := by omega
    obtain ⟨r, hr⟩ : ∃ r, sonnetLoop text mc ov 0 (text.length + 1) 0 [] = some r :=
      Option.isSome_iff_exists.mp
        (sonnetLoop_isSome text mc ov 0 (text.length + 1) 0 [] (by omega))
    have hcov := sonnetLoop_cover text mc ov hmc hws (text.length + 1) 0 [] r hr hlen
      (by intro j hj; omega)
    rw [hr]
    dsimp only [Option.getD]
    constructor
    · intro j hj
      obtain ⟨c, hc, hcj⟩ := hcov.1 j hj
      exact ⟨{ c with total_chunks := r.length }, List.mem_map_of_mem _ hc, hcj⟩
    · rw [List.getLast?_map]
      cases hlast : r.getLast? with
      | none =>
        rw [hlast] at hcov
        exact absurd hcov.2 (by simp)
      | some c =>
        rw [hlast] at hcov
        have hce : c.end_pos = text.length := by simpa using hcov.2
        show some c.end_pos = some text.length
        rw [hce]

/-- C8 (counterexample): on a twelve-character text with
`max_chunk_size = 10`, `overlap_size = 0`, `min_chunk_size = 5`, the
intelligent chunker emits the single range `[0, 10)` — the two-character
tail window is dropped as shorter than `min_chunk_size`, so the chunk
ranges do not cover `[0, 12)` and the last chunk does not end at
`len(text) = 12`. -/
theorem sonnet_chunk_gap_cex :
    (sonnet_chunk_text_intelligent (List.replicate 12 'a') 10 0 5).map
        (fun c => (c.start_pos, c.end_pos)) = [(0, 10)] ∧
    (List.replicate 12 'a' : Str).length = 12 := by decide

/-- Witness for `sonnet_chunk_coverage` on the concrete text `"abcd"`. -/
theorem sonnet_chunk_coverage_witness :
    (0 < 2 ∧ ∀ c ∈ "abcd".data, isPySpace c = false) ∧
    ((∀ j, j < ("abcd".data).length →
        ∃ c ∈ sonnet_chunk_text_intelligent "abcd".data 2 0 0,
          c.start_pos ≤ j ∧ j < c.end_pos) ∧
      (sonnet_chunk_text_intelligent "abcd".data 2 0 0).getLast?.map SChunk.end_pos =
        some ("abcd".data).length) :=
  ⟨⟨by decide, by decide⟩,
    sonnet_chunk_coverage "abcd".data 2 0 (by decide) (by decide)⟩

/-! ## Claim C9 — batched embeddings -/

/-- The fueled batching loop embeds exactly the input, in order, whenever
the fuel covers the list and the batch size is positive. -/
theorem pyBatchesAux_eq (f : String → Emb) :
    ∀ fuel batch_size l, 0 < batch_size → l.length ≤ fuel →
      pyBatchesAux f fuel batch_size l = l.map f := by
  intro fuel
  induction fuel with
  | zero =>
    intro bs l hbs hl
    have : l = [] := List.eq_nil_of_length_eq_zero (by omega)
    subst this
    rfl
  | succ n ih =>
    intro bs l hbs hl
    rw [pyBatchesAux]
    by_cases hc : bs = 0 ∨ l = []
    · rcases hc with hc | hc
      · omega
      · subst hc
        simp
    · rw [if_neg hc]
      push_neg at hc
      have hlpos : 0 < l.length := List.length_pos.mpr hc.2
      have hdrop : (l.drop bs).length ≤ n := by
        rw [List.length_drop]
        omega
      rw [ih bs (l.drop bs) hbs hdrop]
      show (l.take bs).map f ++ (l.drop bs).map f = l.map f
      rw [← List.map_append, List.take_append_drop]

/-- C9: for every positive batch size (the source uses 32), the batched
embedding equals the unbatched embedding of the same list — one output
vector per input text, position `i` of the output embedding position `i`
of the input — regardless of where the batch boundaries fall. -/
theorem batched_embeddings_eq_unbatched (f : String → Emb) (batch_size : Nat)
    (texts : List String) (h : 0 < batch_size) :
    sonnet_generate_embeddings_batched f batch_size texts =
      generate_embeddings f texts ∧
    (sonnet_generate_embeddings_batched f batch_size texts).length = texts.length ∧
    ∀ i, (sonnet_generate_embeddings_batched f batch_size texts).get? i =
      (texts.get? i).map f := by
  have hmain : sonnet_generate_embeddings_batched f batch_size texts =
      generate_embeddings f texts := by
    unfold sonnet_generate_embeddings_batched
    by_cases he : texts = []
    · subst he
      rfl
    · rw [if_neg he]
      exact pyBatchesAux_eq f texts.length batch_size texts h (Nat.le_refl _)
  refine ⟨hmain, ?_, ?_⟩
  · rw [hmain]
    exact List.length_map texts f
  · intro i
    rw [hmain]
    exact List.get?_map f texts i

/-- Witness for `batched_embeddings_eq_unbatched` at batch size 32 on a
three-element input. -/
theorem batched_embeddings_eq_unbatched_witness :
    0 < 32 ∧
    (sonnet_generate_embeddings_batched (fun s => [(s.length : ℚ)]) 32 ["a", "bb", "ccc"] =
        generate_embeddings (fun s => [(s.length : ℚ)]) ["a", "bb", "ccc"] ∧
      (sonnet_generate_embeddings_batched (fun s => [(s.length : ℚ)]) 32
        ["a", "bb", "ccc"]).length = (["a", "bb", "ccc"] : List String).length ∧
      ∀ i, (sonnet_generate_embeddings_batched (fun s => [(s.length : ℚ)]) 32
        ["a", "bb", "ccc"]).get? i =
        ((["a", "bb", "ccc"] : List String).get? i).map (fun s => [(s.length : ℚ)])) :=
  ⟨by omega, batched_embeddings_eq_unbatched (fun s => [(s.length : ℚ)]) 32
    ["a", "bb", "ccc"] (by omega)⟩

/-! ## Claim C10 — chunk id uniqueness -/

/-- Numeric value of a digit character. -/
def digitVal (c : Char) : Nat := c.toNat - 48

/-- Decimal value of a digit string. -/
def valOfDigits (l : Str) : Nat := l.foldl (fun a c => 10 * a + digitVal c) 0

theorem digitVal_digitChar : ∀ d, d < 10 → digitVal (digitChar d) = d := by decide

theorem digitChar_ne_underscore : ∀ d, d < 10 → digitChar d ≠ '_' := by decide

/-- `foldl` step over an appended final digit. -/
theorem valOfDigits_append_digit (l : Str) (c : Char) :
    valOfDigits (l ++ [c]) = 10 * valOfDigits l + digitVal c := by
  unfold valOfDigits
  rw [List.foldl_append]
  rfl

/-- The fueled decimal rendering round-trips through `valOfDigits`. -/
theorem valOfDigits_natReprAux :
    ∀ fuel n, n < 10 ^ fuel → valOfDigits (natReprAux fuel n) = n := by
  intro fuel
  induction fuel with
  | zero =>
    intro n hn
    interval_cases n
    rfl
  | succ m ih =>
    intro n hn
    rw [natReprAux]
    by_cases h10 : n < 10
    · rw [if_pos h10]
      show 10 * 0 + digitVal (digitChar n) = n
      rw [digitVal_digitChar n h10]
      omega
    · rw [if_neg h10]
      rw [valOfDigits_append_digit]
      have hdiv : n / 10 < 10 ^ m := by
        rw [pow_succ] at hn
        exact Nat.div_lt_of_lt_mul (by omega)
      rw [ih (n / 10) hdiv, digitVal_digitChar (n % 10) (Nat.mod_lt n (by omega))]
      omega

theorem valOfDigits_natRepr (n : Nat) : valOfDigits (natRepr n) = n :=
  valOfDigits_natReprAux (n + 1) n
    (Nat.lt_of_lt_of_le (Nat.lt_two_pow n)
      (Nat.pow_le_pow_left (by omega) n |>.trans (Nat.pow_le_pow_right (by omega) (by omega))))

/-- Decimal rendering is injective. -/
theorem natRepr_injective {a b : Nat} (h : natRepr a = natRepr b) : a = b := by
  have := valOfDigits_natRepr a
  rw [h, valOfDigits_natRepr] at this
  omega

/-- Decimal renderings contain no underscore. -/
theorem natReprAux_ne_underscore :
    ∀ fuel n c, c ∈ natReprAux fuel n → c ≠ '_' := by
  intro fuel
  induction fuel with
  | zero =>
    intro n c hc
    cases hc
  | succ m ih =>
    intro n c hc
    rw [natReprAux] at hc
    by_cases h10 : n < 10
    · rw [if_pos h10] at hc
      rw [List.mem_singleton] at hc
      subst hc
      exact digitChar_ne_underscore n h10
    · rw [if_neg h10] at hc
      rw [List.mem_append] at hc
      rcases hc with hc | hc
      · exact ih (n / 10) c hc
      · rw [List.mem_singleton] at hc
        subst hc
        exact digitChar_ne_underscore (n % 10) (Nat.mod_lt n (by omega))

theorem natRepr_ne_underscore {n : Nat} {c : Char} (hc : c ∈ natRepr n) : c ≠ '_' :=
  natReprAux_ne_underscore (n + 1) n c hc

/-- Splitting at the first underscore after an underscore-free prefix is
unambiguous. -/
theorem underscore_split :
    ∀ (xs₁ xs₂ r₁ r₂ : Str), (∀ c ∈ xs₁, c ≠ '_') → (∀ c ∈ xs₂, c ≠ '_') →
      xs₁ ++ '_' :: r₁ = xs₂ ++ '_' :: r₂ → xs₁ = xs₂ ∧ r₁ = r₂ := by
  intro xs₁
  induction xs₁ with
  | nil =>
    intro xs₂ r₁ r₂ _ h2 he
    cases xs₂ with
    | nil =>
      simp only [List.nil_append] at he
      cases he
      exact ⟨rfl, rfl⟩
    | cons c t =>
      simp only [List.nil_append, List.cons_append] at he
      cases he
      exact absurd rfl (h2 '_' (List.mem_cons_self _ _))
  | cons c t ih =>
    intro xs₂ r₁ r₂ h1 h2 he
    cases xs₂ with
    | nil =>
      simp only [List.nil_append, List.cons_append] at he
      cases he
      exact absurd rfl (h1 '_' (List.mem_cons_self _ _))
    | cons c2 t2 =>
      simp only [List.cons_append, List.cons.injEq] at he
      obtain ⟨rfl, he2⟩ := he
      obtain ⟨ht, hr⟩ := ih t2 r₁ r₂ (fun x hx => h1 x (List.mem_cons_of_mem _ hx))
        (fun x hx => h2 x (List.mem_cons_of_mem _ hx)) he2
      exact ⟨by rw [ht], hr⟩

/-- C10 (amended): for a fixed filename, `generate_chunk_id` is injective
in (session id, timestamp, chunk index), provided the timestamps have the
fixed 15-character `%Y%m%d_%H%M%S` width the source always produces.
(The amendment drops injectivity in the filename: sanitization maps
distinct filenames to the same id — the counterexample — and truncation
to 20 characters does the same for long filenames.) -/
theorem generate_chunk_id_injective (chat₁ chat₂ ts₁ ts₂ : Str) (i₁ i₂ : Nat)
    (fname : Str) (h₁ : ts₁.length = 15) (h₂ : ts₂.length = 15)
    (heq : generate_chunk_id chat₁ ts₁ i₁ fname = generate_chunk_id chat₂ ts₂ i₂ fname) :
    chat₁ = chat₂ ∧ ts₁ = ts₂ ∧ i₁ = i₂ := by
  have hbase : chat₁ ++ '_' :: ts₁ ++ '_' :: natRepr i₁ =
      chat₂ ++ '_' :: ts₂ ++ '_' :: natRepr i₂ := by
    unfold generate_chunk_id at heq
    by_cases hf : fname = []
    · rw [if_pos hf, if_pos hf] at heq
      exact heq
    · rw [if_neg hf, if_neg hf] at heq
      have h3 := List.append_cancel_left heq
      rw [List.cons.injEq] at h3
      exact h3.2
  have hrev : (natRepr i₁).reverse ++ '_' :: (ts₁.reverse ++ '_' :: chat₁.reverse) =
      (natRepr i₂).reverse ++ '_' :: (ts₂.reverse ++ '_' :: chat₂.reverse) := by
    have := congrArg List.reverse hbase
    simpa [List.reverse_append, List.append_assoc] using this
  have hd := underscore_split (natRepr i₁).reverse (natRepr i₂).reverse _ _
    (fun c hc => natRepr_ne_underscore (List.mem_reverse.mp hc))
    (fun c hc => natRepr_ne_underscore (List.mem_reverse.mp hc)) hrev
  have hi : i₁ = i₂ :=
    natRepr_injective (List.reverse_injective hd.1)
  have hts := List.append_inj hd.2 (by rw [List.length_reverse, List.length_reverse, h₁, h₂])
  have hts1 : ts₁ = ts₂ := List.reverse_injective hts.1
  have hchat : chat₁ = chat₂ := by
    have := hts.2
    rw [List.cons.injEq] at this
    exact List.reverse_injective this.2
  exact ⟨hchat, hts1, hi⟩

/-- C10 (counterexample): the distinct tuples differing only in filename
`"a?"` versus `"a!"` produce the same chunk id — sanitization replaces
both `'?'` and `'!'` by `'_'` — refuting global uniqueness over all
distinct (session id, timestamp, index, filename) tuples. -/
theorem generate_chunk_id_collision_cex :
    generate_chunk_id "chat".data "20250101_120000".data 0 "a?".data =
      generate_chunk_id "chat".data "20250101_120000".data 0 "a!".data ∧
    "a?".data ≠ "a!".data := by decide

/-- Witness for `generate_chunk_id_injective` at concrete arguments. -/
theorem generate_chunk_id_injective_witness :
    (("20250101_120000".data : Str).length = 15 ∧
      ("20250102_120000".data : Str).length = 15) ∧
    ("chat".data : Str) = "chat".data ∧
      ("20250101_120000".data : Str) = "20250101_120000".data ∧ (3 : Nat) = 3 :=
  ⟨⟨by decide, by decide⟩,
    generate_chunk_id_injective "chat".data "chat".data "20250101_120000".data
      "20250101_120000".data 3 3 "f.pdf".data (by decide) (by decide) rfl⟩

/-! ## Claims C1 and C2 — similarity filtering and context cap -/

/-- Members of an `enumerate`-map come from members of the list. -/
theorem mem_enumMapFrom {α β : Type} {f : Nat → α → β} :
    ∀ (l : List α) (i0 : Nat) (b : β), b ∈ enumMapFrom f i0 l →
      ∃ i a, a ∈ l ∧ b = f i a := by
  intro l
  induction l with
  | nil =>
    intro i0 b hb
    cases hb
  | cons a t ih =>
    intro i0 b hb
    rw [enumMapFrom] at hb
    rcases List.mem_cons.mp hb with hb | hb
    · exact ⟨i0, a, List.mem_cons_self a t, hb⟩
    · obtain ⟨i, a2, ha2, hba⟩ := ih (i0 + 1) b hb
      exact ⟨i, a2, List.mem_cons_of_mem a ha2, hba⟩

/-- Length of an `enumerate`-map. -/
theorem length_enumMapFrom {α β : Type} {f : Nat → α → β} :
    ∀ (l : List α) (i0 : Nat), (enumMapFrom f i0 l).length = l.length := by
  intro l
  induction l with
  | nil => intro i0; rfl
  | cons a t ih =>
    intro i0
    rw [enumMapFrom, List.length_cons, List.length_cons, ih (i0 + 1)]

/-- Element lookup in an `enumerate`-map. -/
theorem get?_enumMapFrom {α β : Type} {f : Nat → α → β} :
    ∀ (l : List α) (i0 i : Nat),
      (enumMapFrom f i0 l).get? i = (l.get? i).map (f (i0 + i)) := by
  intro l
  induction l with
  | nil => intro i0 i; rfl
  | cons a t ih =>
    intro i0 i
    cases i with
    | zero => rfl
    | succ j =>
      rw [enumMapFrom]
      show (enumMapFrom f (i0 + 1) t).get? j = (t.get? j).map (f (i0 + (j + 1)))
      rw [ih (i0 + 1) j]
      have harith : i0 + 1 + j = i0 + (j + 1) := by omega
      rw [harith]

/-- C1 (amended, FastAPI workflow): every entry of `retrieved_docs`, every
citation, and every context block comes from a query result whose
similarity `1 - distance` strictly exceeds `0.3` — so in particular meets
the `min_similarity = 0.3` threshold.  (The amendment scopes the claim to
the FastAPI `_retrieve_documents_node`; the RAG_Server
`retrieve_documents_node` applies no similarity filter at all, and its
context admits below-threshold results — the counterexample.) -/
theorem fa_retrieval_threshold (results : List FaResult) :
    (∀ r ∈ (fa_retrieve_from results).retrieved_docs,
      ∃ q ∈ results, r = faMkRetrieved q ∧ (3 : ℚ)/10 < 1 - q.distance) ∧
    (∀ c ∈ (fa_retrieve_from results).citations,
      ∃ q ∈ results, c = faCitation q ∧ (3 : ℚ)/10 < 1 - q.distance) ∧
    (∀ p ∈ (fa_retrieve_from results).context_parts,
      ∃ i q, q ∈ results ∧ (3 : ℚ)/10 < 1 - q.distance ∧
        p = faBlock i (faMkRetrieved q)) := by
  have hkept : ∀ q ∈ results.filter (fun r => decide ((3 : ℚ)/10 < 1 - r.distance)),
      q ∈ results ∧ (3 : ℚ)/10 < 1 - q.distance := by
    intro q hq
    rw [List.mem_filter] at hq
    exact ⟨hq.1, of_decide_eq_true hq.2⟩
  simp only [fa_retrieve_from]
  refine ⟨?_, ?_, ?_⟩
  · intro r hr
    rw [List.mem_map] at hr
    obtain ⟨q, hq, rfl⟩ := hr
    obtain ⟨hq1, hq2⟩ := hkept q hq
    exact ⟨q, hq1, rfl, hq2⟩
  · intro c hc
    rw [List.mem_map] at hc
    obtain ⟨q, hq, rfl⟩ := hc
    obtain ⟨hq1, hq2⟩ := hkept q hq
    exact ⟨q, hq1, rfl, hq2⟩
  · intro p hp
    obtain ⟨i, a, ha, rfl⟩ := mem_enumMapFrom _ 0 p hp
    have ha2 := List.mem_of_mem_take ha
    rw [List.mem_map] at ha2
    obtain ⟨q, hq, rfl⟩ := ha2
    obtain ⟨hq1, hq2⟩ := hkept q hq
    exact ⟨i, q, hq1, hq2, rfl⟩

/-- C1 (counterexample, RAG_Server workflow): a query result at distance
`0.9` — similarity `0.1 < 0.3` — is kept by `retrieve_documents_node` and
becomes a context block of `generate_response_node`. -/
theorem rag_retrieval_below_threshold_cex :
    ragRetrievedFrom [⟨"irrelevant", (9 : ℚ)/10⟩] = [⟨"irrelevant", (9 : ℚ)/10⟩] ∧
    ragContextParts (ragRetrievedFrom [⟨"irrelevant", (9 : ℚ)/10⟩]) =
      ["Document 1:\nirrelevant\n"] ∧
    (1 : ℚ) - 9/10 < 3/10 :=
  ⟨rfl, rfl, by norm_num⟩

/-- C2 (amended, FastAPI workflow): the context never holds more than 3
blocks — exactly `min 3 |retrieved|` blocks, block `i` carrying the
`[Document i+1]:` label of the `i`-th surviving result.  (The amendment
scopes the claim to the FastAPI `_retrieve_documents_node`; the
RAG_Server `generate_response_node` puts every one of the up-to-5
retrieved documents into the context — the counterexample has 4
blocks.) -/
theorem fa_context_at_most_three (results : List FaResult) :
    (fa_retrieve_from results).context_parts.length ≤ 3 ∧
    (fa_retrieve_from results).context_parts.length =
      min 3 (fa_retrieve_from results).retrieved_docs.length ∧
    ∀ i, (fa_retrieve_from results).context_parts.get? i =
      (((fa_retrieve_from results).retrieved_docs.take 3).get? i).map (faBlock i) := by
  simp only [fa_retrieve_from]
  refine ⟨?_, ?_, ?_⟩
  · rw [enumMap, length_enumMapFrom, List.length_take]
    exact Nat.min_le_left _ _
  · rw [enumMap, length_enumMapFrom, List.length_take]
  · intro i
    rw [enumMap, get?_enumMapFrom, Nat.zero_add]

/-- C2 (counterexample, RAG_Server workflow): four retrieved documents
produce four context blocks; the cap of 3 does not hold there. -/
theorem rag_context_four_blocks_cex :
    (ragContextParts (ragRetrievedFrom
      [⟨"d1", 0⟩, ⟨"d2", 0⟩, ⟨"d3", 0⟩, ⟨"d4", 0⟩])).length = 4 ∧ 3 < 4 :=
  ⟨rfl, by omega⟩

/-! ## Claim C3 — generation step -/

/-- The document-validation check of `_check_document_node`, as a
predicate on the optional input document: runs that pass it are exactly
the runs that reach the generation step. -/
def fa_document_ok : Option FaDoc → Bool
  | none => true
  | some d => !(d.content.isEmpty || d.filename == "") && is_supported_format d.filename

/-- C3: every FastAPI run that reaches the generation step (i.e. the
document check routes to `process` or `skip`, not `error`) calls the
Generator on the original, un-cleaned query text — the query field is
never rewritten by any node — together with the assembled context, and
its final `processing_status` is `completed`. -/
theorem fa_generate_uses_original_query_and_completes (env : FaEnv)
    (chat_id user_id query : String) (doc : Option FaDoc)
    (h : fa_document_ok doc = true) :
    (fa_run env chat_id user_id query doc).response =
      env.generate query (fa_run env chat_id user_id query doc).context ∧
    (fa_run env chat_id user_id query doc).processing_status = "completed" := by
  have hqr : ∀ s, (fa_retrieve_documents_node env s).query = s.query := by
    intro s
    unfold fa_retrieve_documents_node
    split <;> rfl
  have main : ∀ s2 : FaState, s2.query = query →
      (fa_generate_response_node env (fa_retrieve_documents_node env
        (fa_wait_for_processing_node (fa_embed_query_node env s2)))).response =
        env.generate query
          (fa_generate_response_node env (fa_retrieve_documents_node env
            (fa_wait_for_processing_node (fa_embed_query_node env s2)))).context ∧
      (fa_generate_response_node env (fa_retrieve_documents_node env
        (fa_wait_for_processing_node
          (fa_embed_query_node env s2)))).processing_status = "completed" := by
    intro s2 hs2
    constructor
    · show env.generate (fa_retrieve_documents_node env
          (fa_wait_for_processing_node (fa_embed_query_node env s2))).query _ = _
      rw [hqr]
      show env.generate s2.query _ = _
      rw [hs2]
      rfl
    · rfl
  cases doc with
  | none =>
    have hrun : fa_run env chat_id user_id query none =
        fa_generate_response_node env
          (fa_retrieve_documents_node env
            (fa_wait_for_processing_node (fa_embed_query_node env
              (fa_check_document_node
                (fa_initial_state chat_id user_id query none))))) := by
      simp [fa_run, fa_should_process_document, fa_check_document_node, fa_initial_state]
    rw [hrun]
    exact main _ rfl
  | some d =>
    simp only [fa_document_ok, Bool.and_eq_true, Bool.not_eq_true',
      Bool.or_eq_false_iff, beq_eq_false_iff_ne, ne_eq] at h
    obtain ⟨⟨hcont, hname⟩, hsupp⟩ := h
    have hcont2 : ¬(d.content = [] ∨ d.filename = "") := by
      rw [List.isEmpty_eq_false_iff_exists_mem] at hcont
      rintro (hc | hc)
      · obtain ⟨x, hx⟩ := hcont
        rw [hc] at hx
        cases hx
      · exact hname hc
    have hcheck : fa_check_document_node (fa_initial_state chat_id user_id query (some d)) =
        { fa_initial_state chat_id user_id query (some d) with
          processing_status := "document_validated" } := by
      show (if d.content = [] ∨ d.filename = "" then _
        else if ¬ is_supported_format d.filename then _ else _) = _
      rw [if_neg hcont2, if_neg (by simp [hsupp])]
    have hrun : fa_run env chat_id user_id query (some d) =
        fa_generate_response_node env
          (fa_retrieve_documents_node env
            (fa_wait_for_processing_node (fa_embed_query_node env
              (fa_process_document_node env
                (fa_check_document_node
                  (fa_initial_state chat_id user_id query (some d))))))) := by
      unfold fa_run
      rw [hcheck]
      simp [fa_should_process_document, fa_initial_state]
    rw [hrun, hcheck]
    exact main _ rfl

/-- A concrete environment for the C3 witness. -/
def faEnvW : FaEnv :=
  ⟨fun _ _ => "", id, fun _ => [], fun _ _ _ _ => "id0", false,
    fun _ _ => [], fun q c => q ++ c⟩

/-- Witness for `fa_generate_uses_original_query_and_completes` on a run
with no document. -/
theorem fa_generate_uses_original_query_witness :
    fa_document_ok none = true ∧
    ((fa_run faEnvW "chat" "user" "hello" none).response =
        faEnvW.generate "hello" (fa_run faEnvW "chat" "user" "hello" none).context ∧
      (fa_run faEnvW "chat" "user" "hello" none).processing_status = "completed") :=
  ⟨rfl, fa_generate_uses_original_query_and_completes faEnvW "chat" "user" "hello" none rfl⟩

/-! ## Claims C4 and C5 — document branch effects on the store -/

/-- The retrieval node never changes the completion flag. -/
theorem rag_retrieve_preserves_completed (env : RagEnv) (w : RagWorld) :
    (rag_retrieve_documents_node env w).state.doc_processing_completed =
      w.state.doc_processing_completed := by
  unfold rag_retrieve_documents_node
  split
  · rfl
  · dsimp only
    split <;> rfl

/-- Operations appended by the retrieval node are never `add`s. -/
theorem rag_retrieve_trace_no_add (env : RagEnv) (w : RagWorld) :
    ∀ op ∈ (rag_retrieve_documents_node env w).trace,
      op ∈ w.trace ∨ ∀ cid ids docs, op ≠ ChromaOp.add cid ids docs := by
  intro op hop
  unfold rag_retrieve_documents_node at hop
  split at hop
  · left
    exact hop
  · dsimp only at hop
    split at hop
    · dsimp only at hop
      rcases List.mem_append.mp hop with hmem | hmem
      · left; exact hmem
      · right
        rw [List.mem_singleton] at hmem
        subst hmem
        intro cid ids docs hne
        cases hne
    · dsimp only at hop
      rcases List.mem_append.mp hop with hmem | hmem
      · left; exact hmem
      · right
        intro cid ids docs hne
        subst hne
        rcases List.mem_cons.mp hmem with hx | hx
        · cases hx
        · rw [List.mem_singleton] at hx
          cases hx

/-- The retrieval node leaves the error list unchanged when the query
embedding is non-empty. -/
theorem rag_retrieve_preserves_errors2 (env : RagEnv) (w : RagWorld)
    (h : w.state.query_embedding ≠ []) :
    (rag_retrieve_documents_node env w).state.errors = w.state.errors := by
  unfold rag_retrieve_documents_node
  split
  · rename_i hq
    exact absurd hq h
  · dsimp only
    split <;> rfl

/-- Specification of the empty-document-list run, shared by claims C4 and
C5: processing is reported complete, no error is recorded (granted a
non-degenerate embedder), and every `add` in the trace carries empty
lists. -/
theorem rag_run_empty_docs_spec (env : RagEnv) (query chat_id : String)
    (store0 : ChromaStore) :
    (rag_run_workflow env query [] chat_id store0).1.doc_processing_completed = true ∧
    (env.embed_one (env.sonnet_clean query) ≠ [] →
      (rag_run_workflow env query [] chat_id store0).1.errors = []) ∧
    ∀ cid ids docs,
      ChromaOp.add cid ids docs ∈ (rag_run_workflow env query [] chat_id store0).2 →
        ids = [] := by
  refine ⟨?_, ?_, ?_⟩
  · show (rag_retrieve_documents_node env _).state.doc_processing_completed = true
    rw [rag_retrieve_preserves_completed]
    rfl
  · intro hemb
    show (rag_retrieve_documents_node env _).state.errors = []
    rw [rag_retrieve_preserves_errors2 env _ hemb]
    rfl
  · intro cid ids docs hmem
    have hmem2 : ChromaOp.add cid ids docs ∈
        (rag_retrieve_documents_node env (rag_wait_for_processing_node
          (rag_store_in_chromadb_node env
            (ragLift (rag_embed_documents_node env)
              (ragLift rag_chunk_documents_node
                (ragLift (rag_clean_documents_node env)
                  (ragLift (rag_extract_text_node env)
                    (ragLift rag_check_documents_node
                      (ragLift (rag_embed_query_node env)
                        (ragLift (rag_clean_query_node env)
                          (ragLift rag_initialize_node
                            ⟨⟨query, [], chat_id, false, "", [], [], [], [], [], [], [], "",
                              []⟩, store0, []⟩))))))))))).trace := hmem
    rcases rag_retrieve_trace_no_add env _ _ hmem2 with h | h
    · have h2 : ChromaOp.add cid ids docs ∈
          ([ChromaOp.create_collection chat_id, ChromaOp.get_collection chat_id,
            ChromaOp.add chat_id [] []] : List ChromaOp) := h
      simp at h2
      exact h2.2.1
    · exact absurd rfl (h cid ids docs)

/-- C4 (amended): a `run_workflow` call with an empty document list
reports `doc_processing_completed = true`, and although the graph still
reaches `store_in_chromadb` — which issues `create_collection`,
`get_collection` and one `collection.add` call (the counterexample) —
every `add` issued during the run carries an empty id list, i.e. no chunk
is ever stored.  (The amendment replaces the claim's "`add` is never
invoked": the RAG_Server graph has no conditional edge, so the store node
runs and calls `add` with empty lists even without documents.) -/
theorem rag_no_document_run_adds_nothing (env : RagEnv) (query chat_id : String)
    (store0 : ChromaStore) :
    (rag_run_workflow env query [] chat_id store0).1.doc_processing_completed = true ∧
    ∀ cid ids docs,
      ChromaOp.add cid ids docs ∈ (rag_run_workflow env query [] chat_id store0).2 →
        ids = [] :=
  ⟨(rag_run_empty_docs_spec env query chat_id store0).1,
    (rag_run_empty_docs_spec env query chat_id store0).2.2⟩

/-- A concrete environment for the RAG_Server counterexamples and
witnesses: identity cleaning, a constant one-dimensional embedder, empty
extraction, an empty similarity search, a fixed clock. -/
def ragEnvW : RagEnv :=
  ⟨id, fun _ => [1], fun _ _ => "", fun _ _ _ => [], "20250101_000000".data⟩

/-- C4 (counterexample): on a run with `documents = []`, the trace does
contain a `collection.add` call — the VectorStore `add` operation *is*
invoked (with empty argument lists), contrary to the claim that it never
is. -/
theorem rag_no_document_add_invoked_cex :
    ChromaOp.add "c" [] [] ∈ (rag_run_workflow ragEnvW "q" [] "c" []).2 := by decide

/-- The `"virus.exe"` run coincides with the empty-document run: the
check node filters the unsupported document out and marks processing
complete, producing exactly the state the no-document path produces. -/
theorem rag_run_virus_eq_empty (env : RagEnv) (query chat_id : String)
    (content : List Nat) (store0 : ChromaStore) :
    rag_run_workflow env query [⟨"virus.exe", content⟩] chat_id store0 =
      rag_run_workflow env query [] chat_id store0 := by
  have htype : (check_document_type "virus.exe" == "unsupported") = true := by decide
  have hstate : ∀ s : RagState, s.documents = [⟨"virus.exe", content⟩] →
      rag_check_documents_node s = { s with
        documents := ([] : List RagDoc)
        doc_processing_completed := true } := by
    intro s hs
    unfold rag_check_documents_node
    rw [if_neg (by rw [hs]; simp)]
    rw [hs]
    simp [List.filter, htype]
  have hcheck : ragLift rag_check_documents_node
      (ragLift (rag_embed_query_node env)
        (ragLift (rag_clean_query_node env)
          (ragLift rag_initialize_node
            ⟨⟨query, [⟨"virus.exe", content⟩], chat_id, false, "", [], [], [], [], [], [],
              [], "", []⟩, store0, []⟩))) =
      ragLift rag_check_documents_node
        (ragLift (rag_embed_query_node env)
          (ragLift (rag_clean_query_node env)
            (ragLift rag_initialize_node
              ⟨⟨query, [], chat_id, false, "", [], [], [], [], [], [], [], "", []⟩,
                store0, []⟩))) := by
    show (⟨rag_check_documents_node _, store0, []⟩ : RagWorld) = ⟨rag_check_documents_node _, store0, []⟩
    rw [hstate _ rfl]
    rfl
  unfold rag_run_workflow
  dsimp only
  rw [hcheck]

/-- C5 (amended): uploading the single document `"virus.exe"` (any
content) yields `doc_processing_completed = true`, an *empty* error list
— the unsupported document is silently filtered out by
`check_documents_node`, and no "unsupported file format" message is
recorded anywhere — and no chunk is stored: every `add` in the trace
carries an empty id list.  (The run still creates the empty session
collection; the non-empty-error part of the claim is what the
counterexample refutes.)  The embedder is assumed to return non-empty
vectors, as fixed-dimension embedding models do. -/
theorem rag_unsupported_document_silently_dropped (env : RagEnv)
    (query chat_id : String) (content : List Nat) (store0 : ChromaStore)
    (hemb : ∀ t, env.embed_one t ≠ []) :
    (rag_run_workflow env query [⟨"virus.exe", content⟩] chat_id store0).1.doc_processing_completed
        = true ∧
    (rag_run_workflow env query [⟨"virus.exe", content⟩] chat_id store0).1.errors = [] ∧
    ∀ cid ids docs,
      ChromaOp.add cid ids docs ∈
          (rag_run_workflow env query [⟨"virus.exe", content⟩] chat_id store0).2 →
        ids = [] := by
  rw [rag_run_virus_eq_empty env query chat_id content store0]
  obtain ⟨h1, h2, h3⟩ := rag_run_empty_docs_spec env query chat_id store0
  exact ⟨h1, h2 (hemb _), h3⟩

/-- C5 (counterexample): the concrete `"virus.exe"` run ends with an
*empty* `errors` list — no "unsupported file format" message is
surfaced — refuting the claim's non-empty-errors conjunct. -/
theorem rag_unsupported_document_no_error_cex :
    (rag_run_workflow ragEnvW "q" [⟨"virus.exe", [0]⟩] "c" []).1.errors = [] ∧
    (rag_run_workflow ragEnvW "q" [⟨"virus.exe", [0]⟩] "c" []).1.doc_processing_completed
      = true := by decide

/-- Witness for `rag_unsupported_document_silently_dropped` in the
concrete environment. -/
theorem rag_unsupported_document_silently_dropped_witness :
    (∀ t, ragEnvW.embed_one t ≠ []) ∧
    ((rag_run_workflow ragEnvW "q" [⟨"virus.exe", [0]⟩] "c" []).1.doc_processing_completed
        = true ∧
      (rag_run_workflow ragEnvW "q" [⟨"virus.exe", [0]⟩] "c" []).1.errors = [] ∧
      ∀ cid ids docs,
        ChromaOp.add cid ids docs ∈
            (rag_run_workflow ragEnvW "q" [⟨"virus.exe", [0]⟩] "c" []).2 →
          ids = []) :=
  ⟨fun _ => List.cons_ne_nil 1 [],
    rag_unsupported_document_silently_dropped ragEnvW "q" "c" [0] []
      (fun _ => List.cons_ne_nil 1 [])⟩

end MysticNexus
